import Mathlib

/-
Shallow embedding of src/Tools/tiftool.py.

A raster is modelled as a 2-D grid `List (List ℚ)` of numeric samples;
numpy float values computed during normalization are modelled as
`Option ℚ`, where `none` stands for a non-finite value (NaN or Inf)
produced by a division by zero — numpy emits a warning and propagates
NaN/Inf through subsequent arithmetic rather than raising.

External collaborators (gdal, cv2) appear only through their contracts:
`computeRasterMinMax` is gdal's observed min/max of the band, and
`cv2_resize` fixes the output dimensions (the interpolation kernel is an
implementation choice of the library, modelled by nearest-neighbour
sampling).  The trailing `astype(np.uint16)` cast on line 64 is not
modelled: the claims about output values are explicitly about the
mathematical clip-scale-recenter result before the cast, and the cast of
a NaN or out-of-range float to uint16 is platform-defined.
-/

/-- numpy-style elementwise division: a zero divisor yields a non-finite
value (NaN for 0/0, Inf otherwise), modelled as `none`. -/
def npDiv (x y : ℚ) : Option ℚ := if y = 0 then none else some (x / y)

/-- Minimum of a list of samples; numpy raises on an empty array, the
`[]` case is a junk value never relied upon (all claims concern nonempty
rasters). -/
def listMin : List ℚ → ℚ
  | [] => 0
  | x :: xs => xs.foldl min x

/-- Maximum of a list of samples; `[]` case as in `listMin`. -/
def listMax : List ℚ → ℚ
  | [] => 0
  | x :: xs => xs.foldl max x

/-- np.min over a 2-D array: minimum of all samples. -/
def npMin (img : List (List ℚ)) : ℚ := listMin img.flatten

/-- np.max over a 2-D array: maximum of all samples. -/
def npMax (img : List (List ℚ)) : ℚ := listMax img.flatten

/-- np.rint: round to the nearest integer, ties to even. -/
def npRint (q : ℚ) : ℚ :=
  if q - ⌊q⌋ < 1/2 then (⌊q⌋ : ℚ)
  else if (1:ℚ)/2 < q - ⌊q⌋ then (⌊q⌋ : ℚ) + 1
  else if ⌊q⌋ % 2 = 0 then (⌊q⌋ : ℚ) else (⌊q⌋ : ℚ) + 1

/-- np.clip(v, lo, hi) as numpy computes it: min(max(v, lo), hi). -/
def npClip (v lo hi : ℚ) : ℚ := min (max v lo) hi

/-- The `color_range` selection of normalize_to_uint16, lines 59-62:
`(img_max - img_min) / new_color_step_dist` when binary mode is off and
`0 < new_color_step_dist < 65535`, and `65535` otherwise. -/
def color_range (img_min img_max new_color_step_dist : ℚ)
    (use_binary_mode : Bool) : ℚ :=
  if use_binary_mode = false ∧ 0 < new_color_step_dist ∧
      new_color_step_dist < 65535 then
    (img_max - img_min) / new_color_step_dist
  else 65535

/-- normalize_to_uint16, lines 52-66: rescale to the unit interval,
optionally round to {0,1} in binary mode, scale by `color_range`, clip
to [0, color_range], recenter by adding (65535 - color_range)/2, and
report `(img_max - img_min) / color_range` as the output color step
distance.  The returned grid holds the pre-cast mathematical pixel
values (`none` = NaN/Inf); the final astype(np.uint16) is not modelled
(see the header comment). -/
def normalize_to_uint16 (img : List (List ℚ)) (new_color_step_dist : ℚ)
    (use_binary_mode : Bool) : List (List (Option ℚ)) × Option ℚ :=
  let img_min := npMin img
  let img_max := npMax img
  let normalized1 := img.map (List.map (fun x =>
    npDiv (x - img_min) (img_max - img_min)))
  let normalized2 := if use_binary_mode then
      normalized1.map (List.map (Option.map npRint))
    else normalized1
  let cr := color_range img_min img_max new_color_step_dist use_binary_mode
  let normalized3 := normalized2.map (List.map (Option.map (fun v => v * cr)))
  let normalized4 := normalized3.map (List.map (Option.map (fun v =>
    npClip v 0 cr + (65535 - cr) / 2)))
  (normalized4, npDiv (img_max - img_min) cr)

/-- The value normalize_to_uint16 computes for one sample `x`, obtained
by composing its elementwise stages (proved equal to the staged
definition in `normalize_fst_eq`). -/
def pixel_val (img_min img_max cr : ℚ) (use_binary_mode : Bool) (x : ℚ) :
    Option ℚ :=
  Option.map (fun u =>
      npClip ((if use_binary_mode then npRint u else u) * cr) 0 cr +
        (65535 - cr) / 2)
    (npDiv (x - img_min) (img_max - img_min))

/-- calculate_resize_factors, lines 35-38: unguarded divisions.  A zero
`new_pixel_size` makes Python's float division raise ZeroDivisionError,
modelled as `none`; any nonzero value (including negatives) returns the
two quotients with no validation. -/
def calculate_resize_factors (orig_pixel_width orig_pixel_height
    new_pixel_size : ℚ) : Option (ℚ × ℚ) :=
  if new_pixel_size = 0 then none
  else some (orig_pixel_width / new_pixel_size,
    orig_pixel_height / new_pixel_size)

/-- Python int() applied to a float truncates toward zero. -/
def pyInt (q : ℚ) : ℤ := if q < 0 then ⌈q⌉ else ⌊q⌋

/-- Modelled from the spec: cv2.resize is an external collaborator; per
the Resampler contract only the output dimensions are fixed ("exact
kernel is an implementation choice"), so the content is modelled by
nearest-neighbour sampling while the result has exactly `new_height`
rows of `new_width` samples each. -/
def cv2_resize (img : List (List ℚ)) (new_width new_height : ℕ) :
    List (List ℚ) :=
  (List.range new_height).map (fun i =>
    (List.range new_width).map (fun j =>
      (img.getD (i * img.length / new_height) []).getD
        (j * (img.headD []).length / new_width) 0))

/-- resize_image, lines 41-49: reads (orig_height, orig_width) from the
array shape, computes the new dimensions with Python int() of
width·factor, and calls cv2.resize with them. -/
def resize_image (img : List (List ℚ)) (resize_factor_x resize_factor_y : ℚ) :
    List (List ℚ) :=
  let orig_height := img.length
  let orig_width := (img.headD []).length
  let new_width := (pyInt (orig_width * resize_factor_x)).toNat
  let new_height := (pyInt (orig_height * resize_factor_y)).toNat
  cv2_resize img new_width new_height

/-- band.ComputeRasterMinMax: gdal returns the observed minimum and
maximum sample values of the band. -/
def computeRasterMinMax (img : List (List ℚ)) : ℚ × ℚ :=
  (npMin img, npMax img)

/-- The color-step computation of get_geotiff_data, lines 22-23:
`(max_elevation - min_elevation) / (2 ** color_depth - 1)` with the
observed min/max from ComputeRasterMinMax. -/
def source_color_step_dist (img : List (List ℚ)) (color_depth : ℕ) : ℚ :=
  let mm := computeRasterMinMax img
  (mm.2 - mm.1) / (2 ^ color_depth - 1)

/-- The color_range determination as the spec words it: binary mode
gives 65535; continuous mode with 0 < target < 65535 gives
(img_max - img_min) / target; otherwise (target 0, negative, or at
least 65535) gives 65535. -/
def color_range_spec (img_min img_max target : ℚ) (binary : Bool) : ℚ :=
  if binary then 65535
  else if 0 < target ∧ target < 65535 then (img_max - img_min) / target
  else 65535

theorem foldl_min_le_init (xs : List ℚ) (a : ℚ) : xs.foldl min a ≤ a := by
  induction xs generalizing a with
  | nil => exact le_refl a
  | cons x xs ih =>
    exact le_trans (ih (min a x)) (min_le_left a x)

theorem foldl_min_le_mem (xs : List ℚ) (a x : ℚ) (hx : x ∈ xs) :
    xs.foldl min a ≤ x := by
  induction xs generalizing a with
  | nil => cases hx
  | cons y ys ih =>
    rcases List.mem_cons.mp hx with h | h
    · subst h
      exact le_trans (foldl_min_le_init ys (min a x)) (min_le_right a x)
    · exact ih (min a y) h

theorem foldl_min_mem (xs : List ℚ) (a : ℚ) :
    xs.foldl min a = a ∨ xs.foldl min a ∈ xs := by
  induction xs generalizing a with
  | nil => exact Or.inl rfl
  | cons y ys ih =>
    rcases ih (min a y) with h | h
    · rcases min_choice a y with h2 | h2
      · exact Or.inl (by rw [List.foldl_cons, h, h2])
      · exact Or.inr (by rw [List.foldl_cons, h, h2]; exact List.mem_cons_self y ys)
    · exact Or.inr (List.mem_cons_of_mem y h)

theorem init_le_foldl_max (xs : List ℚ) (a : ℚ) : a ≤ xs.foldl max a := by
  induction xs generalizing a with
  | nil => exact le_refl a
  | cons x xs ih =>
    exact le_trans (le_max_left a x) (ih (max a x))

theorem mem_le_foldl_max (xs : List ℚ) (a x : ℚ) (hx : x ∈ xs) :
    x ≤ xs.foldl max a := by
  induction xs generalizing a with
  | nil => cases hx
  | cons y ys ih =>
    rcases List.mem_cons.mp hx with h | h
    · subst h
      exact le_trans (le_max_right a x) (init_le_foldl_max ys (max a x))
    · exact ih (max a y) h

theorem foldl_max_mem (xs : List ℚ) (a : ℚ) :
    xs.foldl max a = a ∨ xs.foldl max a ∈ xs := by
  induction xs generalizing a with
  | nil => exact Or.inl rfl
  | cons y ys ih =>
    rcases ih (max a y) with h | h
    · rcases max_choice a y with h2 | h2
      · exact Or.inl (by rw [List.foldl_cons, h, h2])
      · exact Or.inr (by rw [List.foldl_cons, h, h2]; exact List.mem_cons_self y ys)
    · exact Or.inr (List.mem_cons_of_mem y h)

theorem listMin_le (xs : List ℚ) (x : ℚ) (hx : x ∈ xs) : listMin xs ≤ x := by
  cases xs with
  | nil => cases hx
  | cons y ys =>
    rcases List.mem_cons.mp hx with h | h
    · subst h; exact foldl_min_le_init ys x
    · exact foldl_min_le_mem ys y x h

theorem le_listMax (xs : List ℚ) (x : ℚ) (hx : x ∈ xs) : x ≤ listMax xs := by
  cases xs with
  | nil => cases hx
  | cons y ys =>
    rcases List.mem_cons.mp hx with h | h
    · subst h; exact init_le_foldl_max ys x
    · exact mem_le_foldl_max ys y x h

theorem listMin_mem (xs : List ℚ) (h : xs ≠ []) : listMin xs ∈ xs := by
  cases xs with
  | nil => exact absurd rfl h
  | cons y ys =>
    rcases foldl_min_mem ys y with h2 | h2
    · show ys.foldl min y ∈ y :: ys
      rw [h2]; exact List.mem_cons_self y ys
    · exact List.mem_cons_of_mem y h2

theorem listMax_mem (xs : List ℚ) (h : xs ≠ []) : listMax xs ∈ xs := by
  cases xs with
  | nil => exact absurd rfl h
  | cons y ys =>
    rcases foldl_max_mem ys y with h2 | h2
    · show ys.foldl max y ∈ y :: ys
      rw [h2]; exact List.mem_cons_self y ys
    · exact List.mem_cons_of_mem y h2

theorem flatten_ne_nil_of_min_lt_max {img : List (List ℚ)}
    (h : npMin img < npMax img) : img.flatten ≠ [] := by
  intro hnil
  rw [npMin, npMax, hnil] at h
  exact absurd h (by norm_num [listMin, listMax])

theorem npRint_zero : npRint 0 = 0 := by
  norm_num [npRint]

theorem npRint_one : npRint 1 = 1 := by
  norm_num [npRint]

theorem npRint_mem_unit {q : ℚ} (h0 : 0 ≤ q) (h1 : q ≤ 1) :
    npRint q = 0 ∨ npRint q = 1 := by
  have hf0 : (0:ℤ) ≤ ⌊q⌋ := Int.le_floor.mpr (by exact_mod_cast h0)
  have hf1 : ⌊q⌋ ≤ 1 := by
    have h2 : (⌊q⌋ : ℚ) ≤ 1 := le_trans (Int.floor_le q) h1
    exact_mod_cast h2
  have hcase : ⌊q⌋ = 0 ∨ ⌊q⌋ = 1 := by omega
  rcases hcase with hf | hf
  · rw [npRint, hf]
    split_ifs with hlt hgt heven
    · exact Or.inl (by norm_num)
    · exact Or.inr (by norm_num)
    · exact Or.inl (by norm_num)
    · exact absurd rfl heven
  · have hq1 : (1:ℚ) ≤ q := by exact_mod_cast Int.le_floor.mp (le_of_eq hf.symm)
    have hq : q = 1 := le_antisymm h1 hq1
    subst hq
    exact Or.inr npRint_one

theorem normalize_fst_eq (img : List (List ℚ)) (d : ℚ) (b : Bool) :
    (normalize_to_uint16 img d b).1 =
      img.map (List.map (pixel_val (npMin img) (npMax img)
        (color_range (npMin img) (npMax img) d b) b)) := by
  cases b <;>
    simp [normalize_to_uint16, pixel_val, List.map_map, Option.map_map,
      Function.comp] <;>
    intros <;> rfl

theorem normalize_flatten_eq (img : List (List ℚ)) (d : ℚ) (b : Bool) :
    ((normalize_to_uint16 img d b).1).flatten =
      img.flatten.map (pixel_val (npMin img) (npMax img)
        (color_range (npMin img) (npMax img) d b) b) := by
  rw [normalize_fst_eq, ← List.map_flatten]

theorem color_range_nonneg {m M : ℚ} (h : m ≤ M) (d : ℚ) (b : Bool) :
    0 ≤ color_range m M d b := by
  rw [color_range]
  split_ifs with hc
  · exact div_nonneg (by linarith) (le_of_lt hc.2.1)
  · norm_num

theorem color_range_binary (m M d : ℚ) : color_range m M d true = 65535 := by
  simp [color_range]

theorem clip_recenter_bounds (w : ℚ) {cr : ℚ} (h0 : 0 ≤ cr)
    (h1 : cr ≤ 65535) :
    0 ≤ npClip w 0 cr + (65535 - cr) / 2 ∧
      npClip w 0 cr + (65535 - cr) / 2 ≤ 65535 := by
  have ha : 0 ≤ npClip w 0 cr := le_min (le_max_right w 0) h0
  have hb : npClip w 0 cr ≤ cr := min_le_right (max w 0) cr
  exact ⟨by linarith, by linarith⟩

/-- Claim C1: the claim says a constant-valued raster makes normalize
raise a fatal DegenerateRangeError and never return a NaN/Inf-filled
array.  The code has no such guard: evaluated on the all-5.0 raster in
both continuous and binary mode, normalize_to_uint16 returns normally
with every pixel a NaN (the unguarded division by img_max - img_min = 0
on line 56), so the claim describes intended behavior the code lacks. -/
theorem c1_constant_raster_returns_nan_not_error :
    normalize_to_uint16 [[(5:ℚ), 5], [5, 5]] 0 false =
      ([[none, none], [none, none]], some 0) ∧
    normalize_to_uint16 [[(5:ℚ), 5], [5, 5]] 0 true =
      ([[none, none], [none, none]], some 0) := by
  constructor <;>
    norm_num [normalize_to_uint16, npDiv, npMin, npMax, listMin, listMax,
      npClip, color_range]

/-- Claim C2, counterexample: for the raster [[0, 131070]] (img_max >
img_min), continuous mode, target_color_step_distance = 1, color_range
is 131070 and the clip-scale-recenter results are -65535/2 and 196605/2,
falling outside [0, 65535] on both sides. -/
theorem c2_counterexample :
    (normalize_to_uint16 [[(0:ℚ), 131070]] 1 false).1 =
      [[some (-(65535/2 : ℚ)), some (196605/2 : ℚ)]] ∧
    (-(65535/2 : ℚ)) < 0 ∧ (65535 : ℚ) < 196605/2 := by
  refine ⟨?_, by norm_num, by norm_num⟩
  norm_num [normalize_to_uint16, npDiv, npMin, npMax, listMin, listMax,
    npClip, color_range, min_def, max_def]

/-- Claim C2, amended: for every raster with img_max > img_min, whenever
the computed color_range is at most 65535 (always the case in binary
mode and in the full-range fallback; in continuous mode when
(img_max - img_min) / target <= 65535), every clip-scale-recenter pixel
value lies within [0, 65535] inclusive.  When the requested step
distance makes color_range exceed 65535, recentering pushes the extreme
pixels below 0 and above 65535 (see the counterexample). -/
theorem c2_output_bounds_amended (img : List (List ℚ)) (d : ℚ) (b : Bool)
    (h : npMin img < npMax img)
    (hcr : color_range (npMin img) (npMax img) d b ≤ 65535) :
    ∀ v ∈ ((normalize_to_uint16 img d b).1).flatten,
      ∃ q : ℚ, v = some q ∧ 0 ≤ q ∧ q ≤ 65535 := by
  intro v hv
  rw [normalize_flatten_eq] at hv
  rcases List.mem_map.mp hv with ⟨x, hx, hveq⟩
  have hMm : npMax img - npMin img ≠ 0 := ne_of_gt (by linarith)
  have hcr0 : 0 ≤ color_range (npMin img) (npMax img) d b :=
    color_range_nonneg (le_of_lt h) d b
  rw [← hveq, pixel_val, npDiv, if_neg hMm, Option.map_some']
  exact ⟨_, rfl, (clip_recenter_bounds _ hcr0 hcr).1,
    (clip_recenter_bounds _ hcr0 hcr).2⟩

/-- Claim C2, witness for the amended theorem at the raster [[0, 2]]
with target 0 in continuous mode (full-range fallback, color_range =
65535): the hypotheses hold and the pixel value some 0 is within
bounds. -/
theorem c2_witness :
    npMin [[(0:ℚ), 2]] < npMax [[(0:ℚ), 2]] ∧
    color_range (npMin [[(0:ℚ), 2]]) (npMax [[(0:ℚ), 2]]) 0 false ≤ 65535 ∧
    some (0:ℚ) ∈ ((normalize_to_uint16 [[(0:ℚ), 2]] 0 false).1).flatten ∧
    (0:ℚ) ≤ 0 ∧ (0:ℚ) ≤ 65535 := by
  have h : npMin [[(0:ℚ), 2]] < npMax [[(0:ℚ), 2]] := by
    norm_num [npMin, npMax, listMin, listMax, min_def, max_def]
  have hcr : color_range (npMin [[(0:ℚ), 2]]) (npMax [[(0:ℚ), 2]]) 0 false ≤
      65535 := by
    norm_num [color_range]
  have hmem : some (0:ℚ) ∈
      ((normalize_to_uint16 [[(0:ℚ), 2]] 0 false).1).flatten := by
    norm_num [normalize_to_uint16, npDiv, npMin, npMax, listMin, listMax,
      npClip, color_range, min_def, max_def]
  obtain ⟨q, hq, h1, h2⟩ :=
    c2_output_bounds_amended [[(0:ℚ), 2]] 0 false h hcr (some 0) hmem
  have hq0 : q = 0 := (Option.some.inj hq).symm
  rw [hq0] at h1 h2
  exact ⟨h, hcr, hmem, h1, h2⟩

/-- Claim C3: normalize determines color_range exactly as the spec
words it — binary mode gives 65535; continuous mode with 0 < target <
65535 gives (img_max - img_min) / target; every other case gives 65535.
The code's selection (lines 57-62, embedded as color_range and used by
normalize_to_uint16) coincides with the spec's determination
color_range_spec on all inputs. -/
theorem c3_color_range_determination (img_min img_max target : ℚ)
    (b : Bool) :
    color_range img_min img_max target b =
      color_range_spec img_min img_max target b := by
  cases b <;> simp [color_range, color_range_spec]

theorem pixel_val_binary (m M : ℚ) (hm : m < M) (x : ℚ) (hx1 : m ≤ x)
    (hx2 : x ≤ M) :
    pixel_val m M 65535 true x = some 0 ∨
      pixel_val m M 65535 true x = some 65535 := by
  have hMm : M - m ≠ 0 := ne_of_gt (by linarith)
  have hu0 : 0 ≤ (x - m) / (M - m) := div_nonneg (by linarith) (by linarith)
  have hu1 : (x - m) / (M - m) ≤ 1 := by
    rw [div_le_one (by linarith)]; linarith
  rw [pixel_val, npDiv, if_neg hMm, Option.map_some']
  rcases npRint_mem_unit hu0 hu1 with hr | hr
  · left
    simp only [if_true, hr, npClip]
    norm_num
  · right
    simp only [if_true, hr, npClip]
    norm_num

theorem pixel_val_at_min (m M : ℚ) (hm : m < M) :
    pixel_val m M 65535 true m = some 0 := by
  have hMm : M - m ≠ 0 := ne_of_gt (by linarith)
  rw [pixel_val, npDiv, if_neg hMm, Option.map_some']
  simp only [if_true, sub_self, zero_div, npRint_zero, npClip]
  norm_num

theorem pixel_val_at_max (m M : ℚ) (hm : m < M) :
    pixel_val m M 65535 true M = some 65535 := by
  have hMm : M - m ≠ 0 := ne_of_gt (by linarith)
  rw [pixel_val, npDiv, if_neg hMm, Option.map_some']
  simp only [if_true, div_self hMm, npRint_one, npClip]
  norm_num

/-- Claim C4: in binary mode, for every raster with img_max > img_min,
the array returned by normalize contains at most two distinct values —
every pixel is 0 or 65535 — and since a nonempty raster attains both its
minimum and its maximum, both 0 and 65535 actually occur. -/
theorem c4_binary_two_levels (img : List (List ℚ)) (d : ℚ)
    (h : npMin img < npMax img) :
    (∀ v ∈ ((normalize_to_uint16 img d true).1).flatten,
        v = some 0 ∨ v = some 65535) ∧
    some (0:ℚ) ∈ ((normalize_to_uint16 img d true).1).flatten ∧
    some (65535:ℚ) ∈ ((normalize_to_uint16 img d true).1).flatten := by
  have hflat := normalize_flatten_eq img d true
  rw [color_range_binary] at hflat
  have hne := flatten_ne_nil_of_min_lt_max h
  refine ⟨?_, ?_, ?_⟩
  · intro v hv
    rw [hflat] at hv
    rcases List.mem_map.mp hv with ⟨x, hx, hveq⟩
    rw [← hveq]
    exact pixel_val_binary _ _ h x (listMin_le _ x hx) (le_listMax _ x hx)
  · rw [hflat]
    exact List.mem_map.mpr ⟨npMin img, listMin_mem _ hne,
      pixel_val_at_min _ _ h⟩
  · rw [hflat]
    exact List.mem_map.mpr ⟨npMax img, listMax_mem _ hne,
      pixel_val_at_max _ _ h⟩

/-- Claim C4, witness at the raster [[1, 2]]: the hypothesis holds and
both extreme output values 0 and 65535 occur. -/
theorem c4_witness :
    npMin [[(1:ℚ), 2]] < npMax [[(1:ℚ), 2]] ∧
    some (0:ℚ) ∈ ((normalize_to_uint16 [[(1:ℚ), 2]] 0 true).1).flatten ∧
    some (65535:ℚ) ∈ ((normalize_to_uint16 [[(1:ℚ), 2]] 0 true).1).flatten := by
  have h : npMin [[(1:ℚ), 2]] < npMax [[(1:ℚ), 2]] := by
    norm_num [npMin, npMax, listMin, listMax, min_def, max_def]
  exact ⟨h, (c4_binary_two_levels [[(1:ℚ), 2]] 0 h).2.1,
    (c4_binary_two_levels [[(1:ℚ), 2]] 0 h).2.2⟩

/-- Claim C5: normalize reports output_color_step_distance =
(img_max - img_min) / color_range with color_range the real-valued
divisor, and consequently in continuous mode with 0 < target < 65535
and img_max > img_min the achieved step distance equals the requested
one exactly (so it approximates it within any rounding error). -/
theorem c5_output_color_step_dist (img : List (List ℚ)) (d : ℚ) (b : Bool) :
    (normalize_to_uint16 img d b).2 =
      npDiv (npMax img - npMin img)
        (color_range (npMin img) (npMax img) d b) ∧
    (b = false → npMin img < npMax img → 0 < d → d < 65535 →
      (normalize_to_uint16 img d b).2 = some d) := by
  constructor
  · rfl
  · rintro rfl h hd1 hd2
    have hM : (0:ℚ) < npMax img - npMin img := by linarith
    have hcr : color_range (npMin img) (npMax img) d false =
        (npMax img - npMin img) / d := by
      rw [color_range, if_pos ⟨rfl, hd1, hd2⟩]
    have hcrpos : (0:ℚ) < (npMax img - npMin img) / d := div_pos hM hd1
    show npDiv (npMax img - npMin img)
        (color_range (npMin img) (npMax img) d false) = some d
    rw [hcr, npDiv, if_neg (ne_of_gt hcrpos)]
    have h1 : npMax img - npMin img ≠ 0 := ne_of_gt hM
    have h2 : d ≠ 0 := ne_of_gt hd1
    congr 1
    field_simp

/-- Claim C5, witness at the raster [[0], [3]] with target 1 in
continuous mode: the reported step distance is exactly the requested
1. -/
theorem c5_witness :
    ((normalize_to_uint16 [[(0:ℚ)], [3]] 1 false).2 =
      npDiv (npMax [[(0:ℚ)], [3]] - npMin [[(0:ℚ)], [3]])
        (color_range (npMin [[(0:ℚ)], [3]]) (npMax [[(0:ℚ)], [3]]) 1 false)) ∧
    npMin [[(0:ℚ)], [3]] < npMax [[(0:ℚ)], [3]] ∧ (0:ℚ) < 1 ∧
    (1:ℚ) < 65535 ∧
    (normalize_to_uint16 [[(0:ℚ)], [3]] 1 false).2 = some 1 := by
  have h : npMin [[(0:ℚ)], [3]] < npMax [[(0:ℚ)], [3]] := by
    norm_num [npMin, npMax, listMin, listMax, min_def, max_def]
  exact ⟨(c5_output_color_step_dist [[(0:ℚ)], [3]] 1 false).1, h, by norm_num,
    by norm_num,
    (c5_output_color_step_dist [[(0:ℚ)], [3]] 1 false).2 rfl h (by norm_num)
      (by norm_num)⟩

/-- Claim C6: the claim says compute_resize_factors fails with
InvalidParameterError for every non-positive target_pixel_size,
validated before any numeric work.  The code (lines 35-38) has no
validation at all: at target -1 it silently returns the negative
factors (-2, -2), and at target 0 the failure is a ZeroDivisionError
raised by the division itself (modelled none), not an eager
InvalidParameterError. -/
theorem c6_no_parameter_validation :
    calculate_resize_factors 2 2 (-1) = some (-2, -2) ∧
    calculate_resize_factors 2 2 0 = none := by
  constructor <;> norm_num [calculate_resize_factors]

/-- Claim C7: for every orig_pixel_width, orig_pixel_height and every
positive target pixel size, calculate_resize_factors returns exactly
(orig_pixel_width / target, orig_pixel_height / target). -/
theorem c7_resize_factors_formula (w h t : ℚ) (ht : 0 < t) :
    calculate_resize_factors w h t = some (w / t, h / t) := by
  rw [calculate_resize_factors, if_neg (ne_of_gt ht)]

/-- Claim C7, witness: calculate_resize_factors(2, 2, 1) = (2, 2). -/
theorem c7_witness :
    (0:ℚ) < 1 ∧ calculate_resize_factors 2 2 1 = some (2, 2) := by
  refine ⟨by norm_num, ?_⟩
  rw [c7_resize_factors_formula 2 2 1 (by norm_num)]
  norm_num

/-- Claim C8: for every raster and every pair of positive resize
factors, the raster returned by resize_image has exactly
floor(orig_height * fy) rows of exactly floor(orig_width * fx) samples
each — Python's int() truncates toward zero, which agrees with floor
for the nonnegative products arising from positive factors. -/
theorem c8_resize_dimensions (img : List (List ℚ)) (fx fy : ℚ)
    (hx : 0 < fx) (hy : 0 < fy) :
    ((resize_image img fx fy).length : ℤ) = ⌊(img.length : ℚ) * fy⌋ ∧
    ∀ row ∈ resize_image img fx fy,
      (row.length : ℤ) = ⌊((img.headD []).length : ℚ) * fx⌋ := by
  have hW : (0:ℚ) ≤ ((img.headD []).length : ℚ) * fx :=
    mul_nonneg (Nat.cast_nonneg _) (le_of_lt hx)
  have hH : (0:ℚ) ≤ (img.length : ℚ) * fy :=
    mul_nonneg (Nat.cast_nonneg _) (le_of_lt hy)
  have hpW : pyInt (((img.headD []).length : ℚ) * fx) =
      ⌊((img.headD []).length : ℚ) * fx⌋ := by
    rw [pyInt, if_neg (not_lt.mpr hW)]
  have hpH : pyInt ((img.length : ℚ) * fy) = ⌊(img.length : ℚ) * fy⌋ := by
    rw [pyInt, if_neg (not_lt.mpr hH)]
  have hfW : (0:ℤ) ≤ ⌊((img.headD []).length : ℚ) * fx⌋ :=
    Int.le_floor.mpr (by exact_mod_cast hW)
  have hfH : (0:ℤ) ≤ ⌊(img.length : ℚ) * fy⌋ :=
    Int.le_floor.mpr (by exact_mod_cast hH)
  constructor
  · simp [resize_image, cv2_resize, hpH, Int.toNat_of_nonneg hfH]
  · intro row hrow
    simp only [resize_image, cv2_resize, List.mem_map, List.mem_range]
      at hrow
    obtain ⟨i, hi, hroweq⟩ := hrow
    rw [← hroweq, List.length_map, List.length_range, hpW,
      Int.toNat_of_nonneg hfW]

/-- Claim C8, witness: applying factors (3/2, 3/2) to the 2x2 raster
[[1, 2], [3, 4]] yields floor(2 * 3/2) = 3 rows. -/
theorem c8_witness :
    (0:ℚ) < 3/2 ∧
    ((resize_image [[(1:ℚ), 2], [3, 4]] (3/2) (3/2)).length : ℤ) =
      ⌊(([[(1:ℚ), 2], [3, 4]] : List (List ℚ)).length : ℚ) * (3/2)⌋ :=
  ⟨by norm_num,
    (c8_resize_dimensions [[(1:ℚ), 2], [3, 4]] (3/2) (3/2) (by norm_num)
      (by norm_num)).1⟩

/-- Claim C9: the RasterSource step distance is
(observed_max - observed_min) / (2 ^ color_depth - 1) computed from the
raster's true observed extrema, and for a constant raster it is exactly
0 (the numerator vanishes). -/
theorem c9_source_step_dist (img : List (List ℚ)) (c : ℚ) (depth : ℕ)
    (hd : 1 ≤ depth) (hne : img.flatten ≠ [])
    (hconst : ∀ x ∈ img.flatten, x = c) :
    source_color_step_dist img depth =
      (npMax img - npMin img) / (2 ^ depth - 1) ∧
    source_color_step_dist img depth = 0 := by
  refine ⟨rfl, ?_⟩
  have hmin : npMin img = c := hconst _ (listMin_mem _ hne)
  have hmax : npMax img = c := hconst _ (listMax_mem _ hne)
  show (npMax img - npMin img) / (2 ^ depth - 1) = 0
  rw [hmin, hmax, sub_self, zero_div]

/-- Claim C9, witness: the constant 2x2 raster of 5.0 samples at 16-bit
depth has step distance exactly 0. -/
theorem c9_witness :
    1 ≤ 16 ∧ ([[(5:ℚ), 5], [5, 5]] : List (List ℚ)).flatten ≠ [] ∧
    source_color_step_dist [[(5:ℚ), 5], [5, 5]] 16 = 0 := by
  have hne : ([[(5:ℚ), 5], [5, 5]] : List (List ℚ)).flatten ≠ [] := by
    simp
  have hconst : ∀ x ∈ ([[(5:ℚ), 5], [5, 5]] : List (List ℚ)).flatten,
      x = 5 := by
    intro x hx
    simp at hx
    exact hx
  exact ⟨by norm_num, hne,
    (c9_source_step_dist [[(5:ℚ), 5], [5, 5]] 5 16 (by norm_num) hne
      hconst).2⟩

/-- Claim C10: for every raster with img_max > img_min and every target
and mode, the array returned by normalize has the same number of rows
as the input and every row keeps its length — normalization never
changes the grid's dimensions. -/
theorem c10_shape_preserved (img : List (List ℚ)) (d : ℚ) (b : Bool)
    (h : npMin img < npMax img) :
    ((normalize_to_uint16 img d b).1).length = img.length ∧
    ((normalize_to_uint16 img d b).1).map List.length =
      img.map List.length := by
  rw [normalize_fst_eq]
  constructor
  · exact List.length_map _ _
  · simp [List.map_map, Function.comp]

/-- Claim C10, witness at the raster [[1, 2]]: the normalized grid has
the same row structure as the input. -/
theorem c10_witness :
    npMin [[(1:ℚ), 2]] < npMax [[(1:ℚ), 2]] ∧
    ((normalize_to_uint16 [[(1:ℚ), 2]] 5 false).1).map List.length =
      [[(1:ℚ), 2]].map List.length := by
  have h : npMin [[(1:ℚ), 2]] < npMax [[(1:ℚ), 2]] := by
    norm_num [npMin, npMax, listMin, listMax, min_def, max_def]
  exact ⟨h, (c10_shape_preserved [[(1:ℚ), 2]] 5 false h).2⟩
